import Mathlib

/-!
# Verification of the low-res dither render pipeline

Shallow embedding of the pixel-processing core of the `app-studios`
repository: the Floyd–Steinberg error-diffusion engine
(`floydSteinbergRGBA`), the two-level threshold dither variant
(`dither`), the offscreen-target sizing (`makeTargetSize`), the resize
handler (`onResize`) and the animation tick (`animate`).

JavaScript numbers are modelled by exact rationals `ℚ` (the working
buffers hold continuous-precision values), byte buffers by total
functions `ℕ → ℕ` whose entries at positions below the buffer length
are the byte values.  `Math.round` is `jround`, `Math.floor` on a
rational is `Int.floor`, the `Uint8Array` store conversion (truncate,
then reduce mod 256) is `toUint8`.
-/

/-- JavaScript `Math.round`: round half towards positive infinity. -/
def jround (q : ℚ) : ℤ := ⌊q + 1/2⌋

/-- Truncation towards zero, as used by JavaScript `TointegerOrInfinity`. -/
def jtrunc (q : ℚ) : ℤ := if q < 0 then ⌈q⌉ else ⌊q⌋

/-- `Math.max(0, Math.min(255, z))`, producing a byte value. -/
def clampByte (z : ℤ) : ℕ := (max 0 (min 255 z)).toNat

/-- The JavaScript `Uint8Array` store conversion `ToUint8`:
truncate towards zero, then reduce modulo 2^8. -/
def toUint8 (q : ℚ) : ℕ := ((jtrunc q) % 256).toNat

/-- Quantization step for a channel with `L` levels: `255 / (L - 1)`. -/
def quantStep (L : ℕ) : ℚ := 255 / ((L : ℚ) - 1)

/-- The palette quantizer used inside the diffusion loop:
`Math.round(old / q) * q` for the per-channel step `q`. -/
def quantizeQ (q v : ℚ) : ℚ := (jround (v / q)) * q

/-- `src/unnamed/part_000`: `const levelsR = 8` (3 bits). -/
def levelsR : ℕ := 8

/-- `src/unnamed/part_000`: `const levelsG = 8` (3 bits). -/
def levelsG : ℕ := 8

/-- `src/unnamed/part_000`: `const levelsB = 4` (2 bits). -/
def levelsB : ℕ := 4

/-- `const qR = 255 / (levelsR - 1)`. -/
def qR : ℚ := quantStep levelsR

/-- `const qG = 255 / (levelsG - 1)`. -/
def qG : ℚ := quantStep levelsG

/-- `const qB = 255 / (levelsB - 1)`. -/
def qB : ℚ := quantStep levelsB

/-- A guarded error-diffusion write: `if cond { c[site] += e }`.
This is the shape of each of the four `// distribute errors` blocks of
`floydSteinbergRGBA`. -/
def diffuseTo (cond : Prop) [Decidable cond] (site : ℕ) (e : ℚ) (c : ℕ → ℚ) : ℕ → ℚ :=
  if cond then Function.update c site (c site + e) else c

/-- One pixel of the Floyd–Steinberg loop of `floydSteinbergRGBA`, on a
single channel plane with per-channel step `q`: quantize the current
accumulated value at `idx = y*w + x`, then distribute the signed error
to right, below-left, below and below-right with weights `7/16, 3/16,
5/16, 1/16`, skipping targets outside the `w×h` grid. -/
def fsStep (q : ℚ) (w h y x : ℕ) (c : ℕ → ℚ) : ℕ → ℚ :=
  let idx := y * w + x
  let old := c idx
  let nv := quantizeQ q old
  let err := old - nv
  let c1 := Function.update c idx nv
  let c2 := diffuseTo (x + 1 < w) (idx + 1) (err * (7/16)) c1
  let c3 := diffuseTo (1 ≤ x ∧ y + 1 < h) (idx + w - 1) (err * (3/16)) c2
  let c4 := diffuseTo (y + 1 < h) (idx + w) (err * (5/16)) c3
  let c5 := diffuseTo (x + 1 < w ∧ y + 1 < h) (idx + w + 1) (err * (1/16)) c4
  c5

/-- The three continuous-precision channel planes `r`, `g`, `b`. -/
abbrev Chans : Type := (ℕ → ℚ) × (ℕ → ℚ) × (ℕ → ℚ)

/-- One pixel of the Floyd–Steinberg loop of `floydSteinbergRGBA`, on
all three channel planes in lockstep, exactly as in the source: the R,
G and B values at `idx` are quantized first, then the four guarded
distribution blocks update all three planes. -/
def fsStepRGB (w h y x : ℕ) (s : Chans) : Chans :=
  let idx := y * w + x
  let oldR := s.1 idx
  let newR := quantizeQ qR oldR
  let errR := oldR - newR
  let oldG := s.2.1 idx
  let newG := quantizeQ qG oldG
  let errG := oldG - newG
  let oldB := s.2.2 idx
  let newB := quantizeQ qB oldB
  let errB := oldB - newB
  let r1 := Function.update s.1 idx newR
  let r2 := diffuseTo (x + 1 < w) (idx + 1) (errR * (7/16)) r1
  let r3 := diffuseTo (1 ≤ x ∧ y + 1 < h) (idx + w - 1) (errR * (3/16)) r2
  let r4 := diffuseTo (y + 1 < h) (idx + w) (errR * (5/16)) r3
  let r5 := diffuseTo (x + 1 < w ∧ y + 1 < h) (idx + w + 1) (errR * (1/16)) r4
  let g1 := Function.update s.2.1 idx newG
  let g2 := diffuseTo (x + 1 < w) (idx + 1) (errG * (7/16)) g1
  let g3 := diffuseTo (1 ≤ x ∧ y + 1 < h) (idx + w - 1) (errG * (3/16)) g2
  let g4 := diffuseTo (y + 1 < h) (idx + w) (errG * (5/16)) g3
  let g5 := diffuseTo (x + 1 < w ∧ y + 1 < h) (idx + w + 1) (errG * (1/16)) g4
  let b1 := Function.update s.2.2 idx newB
  let b2 := diffuseTo (x + 1 < w) (idx + 1) (errB * (7/16)) b1
  let b3 := diffuseTo (1 ≤ x ∧ y + 1 < h) (idx + w - 1) (errB * (3/16)) b2
  let b4 := diffuseTo (y + 1 < h) (idx + w) (errB * (5/16)) b3
  let b5 := diffuseTo (x + 1 < w ∧ y + 1 < h) (idx + w + 1) (errB * (1/16)) b4
  (r5, g5, b5)

/-- The doubly nested raster-order loop
`for (y = 0; y < h; y++) for (x = 0; x < w; x++)`, generic in the
per-pixel body and the state it transforms. -/
def gridFold {σ : Type} (step : ℕ → ℕ → σ → σ) (w h : ℕ) (s : σ) : σ :=
  (List.range h).foldl (fun s y => (List.range w).foldl (fun s x => step y x s) s) s

/-- The full error-diffusion pass over one channel plane. -/
def fsPass (q : ℚ) (w h : ℕ) (c : ℕ → ℚ) : ℕ → ℚ :=
  gridFold (fun y x => fsStep q w h y x) w h c

/-- The full error-diffusion pass of `floydSteinbergRGBA` over the
three channel planes. -/
def fsPassRGB (w h : ℕ) (s : Chans) : Chans :=
  gridFold (fun y x => fsStepRGB w h y x) w h s

/-- Seeding of the float working buffers from the RGBA byte buffer:
`r[i] = buf[i*4+0]; g[i] = buf[i*4+1]; b[i] = buf[i*4+2]`. -/
def initChans (buf : ℕ → ℕ) : Chans :=
  (fun i => (buf (i * 4) : ℚ),
   fun i => (buf (i * 4 + 1) : ℚ),
   fun i => (buf (i * 4 + 2) : ℚ))

/-- `floydSteinbergRGBA(buf, w, h)` from `src/unnamed/part_000`:
seed the three float planes from the byte buffer, run the raster-order
Floyd–Steinberg pass, then write each channel back with
`Math.max(0, Math.min(255, Math.round(v)))` and force alpha to 255.
The buffer is modelled functionally; entries beyond the `w*h*4` byte
length are unchanged. -/
def floydSteinbergRGBA (buf : ℕ → ℕ) (w h : ℕ) : ℕ → ℕ :=
  let n := w * h
  let s := fsPassRGB w h (initChans buf)
  fun j =>
    if j < 4 * n then
      if j % 4 = 0 then clampByte (jround (s.1 (j / 4)))
      else if j % 4 = 1 then clampByte (jround (s.2.1 (j / 4)))
      else if j % 4 = 2 then clampByte (jround (s.2.2 (j / 4)))
      else 255
    else buf j

/-- The raster-order pixel sequence `(y, x)` for `y < h`, `x < w`:
top-to-bottom, left-to-right. -/
def pixelList (w h : ℕ) : List (ℕ × ℕ) :=
  (List.range h).flatMap fun y => (List.range w).map fun x => (y, x)

/-- The `spread(dx, dy, factor)` closure of the `dither` function in
`src/components/ShaderBackground.tsx`: add `e * factor` to the channel
value at `(x+dx, y+dy)` when that coordinate is inside the grid. -/
def spread (w h x y : ℕ) (dx dy : ℤ) (factor : ℚ) (e : ℚ) (c : ℕ → ℚ) : ℕ → ℚ :=
  let nx := (x : ℤ) + dx
  let ny := (y : ℤ) + dy
  if 0 ≤ nx ∧ nx < (w : ℤ) ∧ 0 ≤ ny ∧ ny < (h : ℤ) then
    let ni := ny.toNat * w + nx.toNat
    Function.update c ni (c ni + e * factor)
  else c

/-- One pixel of the two-level `dither` loop on a single channel:
threshold at 128 to 0/255, then spread the error with the
Floyd–Steinberg weights. -/
def ditherStep (w h y x : ℕ) (c : ℕ → ℚ) : ℕ → ℚ :=
  let i := y * w + x
  let nr := if c i < 128 then (0 : ℚ) else 255
  let er := c i - nr
  let c1 := Function.update c i nr
  let c2 := spread w h x y 1 0 (7/16) er c1
  let c3 := spread w h x y (-1) 1 (3/16) er c2
  let c4 := spread w h x y 0 1 (5/16) er c3
  let c5 := spread w h x y 1 1 (1/16) er c4
  c5

/-- One pixel of the two-level `dither` loop on all three channel
planes in lockstep, as in the source. -/
def ditherStepRGB (w h y x : ℕ) (s : Chans) : Chans :=
  let i := y * w + x
  let nr := if s.1 i < 128 then (0 : ℚ) else 255
  let ng := if s.2.1 i < 128 then (0 : ℚ) else 255
  let nb := if s.2.2 i < 128 then (0 : ℚ) else 255
  let er := s.1 i - nr
  let eg := s.2.1 i - ng
  let eb := s.2.2 i - nb
  let r1 := Function.update s.1 i nr
  let r2 := spread w h x y 1 0 (7/16) er r1
  let r3 := spread w h x y (-1) 1 (3/16) er r2
  let r4 := spread w h x y 0 1 (5/16) er r3
  let r5 := spread w h x y 1 1 (1/16) er r4
  let g1 := Function.update s.2.1 i ng
  let g2 := spread w h x y 1 0 (7/16) eg g1
  let g3 := spread w h x y (-1) 1 (3/16) eg g2
  let g4 := spread w h x y 0 1 (5/16) eg g3
  let g5 := spread w h x y 1 1 (1/16) eg g4
  let b1 := Function.update s.2.2 i nb
  let b2 := spread w h x y 1 0 (7/16) eb b1
  let b3 := spread w h x y (-1) 1 (3/16) eb b2
  let b4 := spread w h x y 0 1 (5/16) eb b3
  let b5 := spread w h x y 1 1 (1/16) eb b4
  (r5, g5, b5)

/-- The full two-level dither pass over the three channel planes. -/
def ditherPassRGB (w h : ℕ) (s : Chans) : Chans :=
  gridFold (fun y x => ditherStepRGB w h y x) w h s

/-- `dither(buf, w, h)` from `src/components/ShaderBackground.tsx`:
threshold-128 Floyd–Steinberg on each channel, then write back
`buf[i*4+c] = chan[i]` WITHOUT clamping (the raw `Uint8Array` store
conversion applies) and `buf[i*4+3] = 255`. -/
def dither (buf : ℕ → ℕ) (w h : ℕ) : ℕ → ℕ :=
  let s := ditherPassRGB w h (initChans buf)
  fun j =>
    if j < 4 * (w * h) then
      if j % 4 = 0 then toUint8 (s.1 (j / 4))
      else if j % 4 = 1 then toUint8 (s.2.1 (j / 4))
      else if j % 4 = 2 then toUint8 (s.2.2 (j / 4))
      else 255
    else buf j

/-- Per-pixel weight of the error that the diffusion step at `(x, y)`
drops because the corresponding Floyd–Steinberg target lies outside
the `w×h` grid. -/
def droppedWeight (w h y x : ℕ) : ℚ :=
  (if x + 1 < w then 0 else 7/16) +
  (if 1 ≤ x ∧ y + 1 < h then 0 else 3/16) +
  (if y + 1 < h then 0 else 5/16) +
  (if x + 1 < w ∧ y + 1 < h then 0 else 1/16)

/-- Instrumented (ghost) version of `fsStep` that also accumulates the
total error dropped at out-of-bounds diffusion targets. -/
def fsStepD (q : ℚ) (w h y x : ℕ) (cd : (ℕ → ℚ) × ℚ) : (ℕ → ℚ) × ℚ :=
  (fsStep q w h y x cd.1,
   cd.2 + (cd.1 (y * w + x) - quantizeQ q (cd.1 (y * w + x))) * droppedWeight w h y x)

/-- Instrumented full diffusion pass, carrying the dropped-error
accumulator. -/
def fsPassD (q : ℚ) (w h : ℕ) (cd : (ℕ → ℚ) × ℚ) : (ℕ → ℚ) × ℚ :=
  gridFold (fun y x => fsStepD q w h y x) w h cd

/-- Sum of a channel plane over the `n = w*h` pixel slots. -/
def chanSum (n : ℕ) (c : ℕ → ℚ) : ℚ := ∑ j ∈ Finset.range n, c j

/-- `makeTargetSize(w, h, dotsize)` from `src/unnamed/part_000`:
`scale = Math.max(1, Math.floor(dotsize))`,
`tw = Math.max(2, Math.floor(w / scale))`, `th` analogously. -/
def makeTargetSize (w h : ℕ) (dotsize : ℚ) : ℕ × ℕ :=
  let scale : ℕ := (max 1 ⌊dotsize⌋).toNat
  let tw := max 2 (w / scale)
  let th := max 2 (h / scale)
  (tw, th)

/-- State of the render pipeline's size-dependent resources. -/
structure PipelineState where
  targetW : ℕ
  targetH : ℕ
  targetValid : Bool
  pixelBufLen : ℕ
  outCanvasW : ℕ
  outCanvasH : ℕ
  displayW : ℕ
  displayH : ℕ
  dotsize : ℚ
deriving DecidableEq

/-- Mount-time setup from `src/unnamed/part_000`: compute the target
size, create the render target, size the output canvas to the target
size, and allocate `pixelBuf = new Uint8Array(targetW * targetH * 4)`. -/
def mount (w h : ℕ) (ds : ℚ) : PipelineState :=
  let sizes := makeTargetSize w h ds
  { targetW := sizes.1
    targetH := sizes.2
    targetValid := true
    pixelBufLen := sizes.1 * sizes.2 * 4
    outCanvasW := sizes.1
    outCanvasH := sizes.2
    displayW := w
    displayH := h
    dotsize := ds }

/-- `onResize` from `src/unnamed/part_000`, with an explicit allocation
outcome for the replacement render target.  Mirrors the statement
order of the source: recompute `targetW/targetH`, dispose the old
target, then allocate the replacement; only afterwards are the output
canvas and renderer resized.  `pixelBuf` is NOT reallocated.  If the
allocation throws, execution stops after the dispose. -/
def onResize (allocOk : Bool) (w h : ℕ) (s : PipelineState) : PipelineState :=
  let sizes := makeTargetSize w h s.dotsize
  let s1 := { s with targetW := sizes.1, targetH := sizes.2 }
  let s2 := { s1 with targetValid := false }
  if allocOk then
    { s2 with targetValid := true
              outCanvasW := sizes.1
              outCanvasH := sizes.2
              displayW := w
              displayH := h }
  else s2

/-- The sequence of resource events performed by `onResize`, in source
statement order (`target.dispose()` comes first, the allocation of the
replacement `WebGLRenderTarget` second). -/
inductive ResizeEvent where
  | disposeOld
  | allocateNew
  | swapIn
  | resizeOutputCanvas
  | resizeRenderer
deriving DecidableEq, BEq

/-- Event order transcribed from the body of `onResize`. -/
def onResizeEventOrder : List ResizeEvent :=
  [ResizeEvent.disposeOld, ResizeEvent.allocateNew, ResizeEvent.swapIn,
   ResizeEvent.resizeOutputCanvas, ResizeEvent.resizeRenderer]

/-- `const framesBetweenProcess = 1` from `src/unnamed/part_000`. -/
def framesBetweenProcess : ℕ := 1

/-- State observed by the animation loop of `src/unnamed/part_000`. -/
structure AnimState where
  mounted : Bool
  time : ℚ
  frameCounter : ℕ
  pixelBuf : ℕ → ℕ
  outImage : Option ((ℕ → ℕ) × ℕ × ℕ)
  ditherRuns : ℕ
  scheduledNext : Bool

/-- One invocation of `animate(t)`: bail out if unmounted, advance the
time uniform, render (external), advance the throttle counter; when the
counter is 0, try the readback — on failure (`readback = none`) warn,
schedule the next frame and return without touching any buffer; on
success run `floydSteinbergRGBA` on the pixel buffer and put it to the
output canvas.  In every mounted case the next frame is scheduled. -/
def animateTick (readback : Option (ℕ → ℕ)) (tw th : ℕ) (t : ℚ) (s : AnimState) : AnimState :=
  if s.mounted = false then { s with scheduledNext := false }
  else
    let s0 := { s with time := t * (1/1000) }
    let fc := (s0.frameCounter + 1) % framesBetweenProcess
    let s1 := { s0 with frameCounter := fc }
    if fc = 0 then
      match readback with
      | none => { s1 with scheduledNext := true }
      | some px =>
          let processed := floydSteinbergRGBA px tw th
          { s1 with pixelBuf := processed
                    outImage := some (processed, tw, th)
                    ditherRuns := s1.ditherRuns + 1
                    scheduledNext := true }
    else { s1 with scheduledNext := true }

/-- All slots below `k` already hold a value in the range of `quant`. -/
def quantInv (quant : ℚ → ℚ) (k : ℕ) (c : ℕ → ℚ) : Prop :=
  ∀ j < k, ∃ v, c j = quant v

/-- The single-channel two-level dither pass. -/
def ditherPass (w h : ℕ) (c : ℕ → ℚ) : ℕ → ℚ :=
  gridFold (fun y x => ditherStep w h y x) w h c

/-- The byte values produced by writing back the `L` evenly spaced
quantizer outputs `k * 255/(L-1)`, `k < L`, with round-and-clamp. -/
def byteSet (L : ℕ) : Finset ℕ :=
  (Finset.range L).image fun (k : ℕ) => clampByte (jround ((k : ℚ) * quantStep L))

/-- A concrete freshly mounted animation state. -/
def animS0 : AnimState :=
  { mounted := true
    time := 0
    frameCounter := 0
    pixelBuf := fun _ => 0
    outImage := none
    ditherRuns := 0
    scheduledNext := false }

/-! ## Basic update lemmas -/

theorem diffuseTo_apply_of_ne {P : Prop} [Decidable P] {site j : ℕ} (e : ℚ) (c : ℕ → ℚ)
    (h : P → j ≠ site) : diffuseTo P site e c j = c j := by
  simp only [diffuseTo]
  split_ifs with hP
  · exact Function.update_noteq (h hP) _ _
  · rfl

theorem diffuseTo_apply_pos {P : Prop} [Decidable P] {site : ℕ} (e : ℚ) (c : ℕ → ℚ)
    (hP : P) : diffuseTo P site e c site = c site + e := by
  simp only [diffuseTo]
  rw [if_pos hP, Function.update_same]

theorem chanSum_update (n j : ℕ) (c : ℕ → ℚ) (v : ℚ) (hj : j < n) :
    chanSum n (Function.update c j v) = chanSum n c + (v - c j) := by
  unfold chanSum
  rw [Finset.sum_update_of_mem (Finset.mem_range.2 hj),
    Finset.sum_eq_sum_diff_singleton_add (Finset.mem_range.2 hj) c]
  ring

theorem chanSum_diffuseTo {P : Prop} [Decidable P] (n site : ℕ) (e : ℚ) (c : ℕ → ℚ)
    (hsite : P → site < n) :
    chanSum n (diffuseTo P site e c) = chanSum n c + (if P then e else 0) := by
  simp only [diffuseTo]
  split_ifs with hP
  · rw [chanSum_update n site c _ (hsite hP)]; ring
  · ring

/-! ## Pointwise characterization of the diffusion step -/

theorem fsStep_apply_other (q : ℚ) (w h y x j : ℕ) (c : ℕ → ℚ)
    (h0 : j ≠ y * w + x)
    (h1 : x + 1 < w → j ≠ y * w + x + 1)
    (h2 : 1 ≤ x ∧ y + 1 < h → j ≠ y * w + x + w - 1)
    (h3 : y + 1 < h → j ≠ y * w + x + w)
    (h4 : x + 1 < w ∧ y + 1 < h → j ≠ y * w + x + w + 1) :
    fsStep q w h y x c j = c j := by
  simp only [fsStep]
  rw [diffuseTo_apply_of_ne _ _ h4, diffuseTo_apply_of_ne _ _ h3,
    diffuseTo_apply_of_ne _ _ h2, diffuseTo_apply_of_ne _ _ h1]
  exact Function.update_noteq h0 _ _

theorem fsStep_apply_lt (q : ℚ) (w h y x j : ℕ) (c : ℕ → ℚ) (hx : x < w)
    (hj : j < y * w + x) : fsStep q w h y x c j = c j :=
  fsStep_apply_other q w h y x j c (by omega) (fun _ => by omega) (fun hg => by omega)
    (fun _ => by omega) (fun _ => by omega)

theorem fsStep_apply_idx (q : ℚ) (w h y x : ℕ) (c : ℕ → ℚ) (hx : x < w) :
    fsStep q w h y x c (y * w + x) = quantizeQ q (c (y * w + x)) := by
  simp only [fsStep]
  rw [diffuseTo_apply_of_ne _ _ (fun hg => by omega),
    diffuseTo_apply_of_ne _ _ (fun hg => by omega),
    diffuseTo_apply_of_ne _ _ (fun hg => by omega),
    diffuseTo_apply_of_ne _ _ (fun hg => by omega)]
  exact Function.update_same _ _ _

theorem fsStep_apply_right (q : ℚ) (w h y x : ℕ) (c : ℕ → ℚ) (hg : x + 1 < w) :
    fsStep q w h y x c (y * w + x + 1)
      = c (y * w + x + 1) + (c (y * w + x) - quantizeQ q (c (y * w + x))) * (7/16) := by
  simp only [fsStep]
  rw [diffuseTo_apply_of_ne _ _ (fun hg4 => by omega),
    diffuseTo_apply_of_ne _ _ (fun hg3 => by omega),
    diffuseTo_apply_of_ne _ _ (fun hg2 => by omega),
    diffuseTo_apply_pos _ _ hg, Function.update_noteq (by omega)]

theorem fsStep_apply_belowleft (q : ℚ) (w h y x : ℕ) (c : ℕ → ℚ) (hx : x < w)
    (hg : 1 ≤ x ∧ y + 1 < h) :
    fsStep q w h y x c (y * w + x + w - 1)
      = c (y * w + x + w - 1) + (c (y * w + x) - quantizeQ q (c (y * w + x))) * (3/16) := by
  simp only [fsStep]
  rw [diffuseTo_apply_of_ne _ _ (fun hg4 => by omega),
    diffuseTo_apply_of_ne _ _ (fun hg3 => by omega),
    diffuseTo_apply_pos _ _ hg,
    diffuseTo_apply_of_ne _ _ (fun hg1 => by omega),
    Function.update_noteq (by omega)]

theorem fsStep_apply_below (q : ℚ) (w h y x : ℕ) (c : ℕ → ℚ) (hx : x < w)
    (hg : y + 1 < h) :
    fsStep q w h y x c (y * w + x + w)
      = c (y * w + x + w) + (c (y * w + x) - quantizeQ q (c (y * w + x))) * (5/16) := by
  simp only [fsStep]
  rw [diffuseTo_apply_of_ne _ _ (fun hg4 => by omega),
    diffuseTo_apply_pos _ _ hg,
    diffuseTo_apply_of_ne _ _ (fun hg2 => by omega),
    diffuseTo_apply_of_ne _ _ (fun hg1 => by omega),
    Function.update_noteq (by omega)]

theorem fsStep_apply_belowright (q : ℚ) (w h y x : ℕ) (c : ℕ → ℚ)
    (hg : x + 1 < w ∧ y + 1 < h) :
    fsStep q w h y x c (y * w + x + w + 1)
      = c (y * w + x + w + 1) + (c (y * w + x) - quantizeQ q (c (y * w + x))) * (1/16) := by
  simp only [fsStep]
  rw [diffuseTo_apply_pos _ _ hg,
    diffuseTo_apply_of_ne _ _ (fun hg3 => by omega),
    diffuseTo_apply_of_ne _ _ (fun hg2 => by omega),
    diffuseTo_apply_of_ne _ _ (fun hg1 => by omega),
    Function.update_noteq (by omega)]

/-! ## Pointwise lemmas for the `spread`-based two-level dither step -/

theorem spread_apply_of_ne {w h x y : ℕ} {dx dy : ℤ} (factor e : ℚ) (c : ℕ → ℚ) {j : ℕ}
    (hne : 0 ≤ (x : ℤ) + dx → (x : ℤ) + dx < (w : ℤ) → 0 ≤ (y : ℤ) + dy →
      (y : ℤ) + dy < (h : ℤ) → j ≠ ((y : ℤ) + dy).toNat * w + ((x : ℤ) + dx).toNat) :
    spread w h x y dx dy factor e c j = c j := by
  simp only [spread]
  split_ifs with hP
  · exact Function.update_noteq (hne hP.1 hP.2.1 hP.2.2.1 hP.2.2.2) _ _
  · rfl

theorem spread_apply_pos {w h x y : ℕ} {dx dy : ℤ} (factor e : ℚ) (c : ℕ → ℚ)
    (h1 : 0 ≤ (x : ℤ) + dx) (h2 : (x : ℤ) + dx < (w : ℤ)) (h3 : 0 ≤ (y : ℤ) + dy)
    (h4 : (y : ℤ) + dy < (h : ℤ)) :
    spread w h x y dx dy factor e c (((y : ℤ) + dy).toNat * w + ((x : ℤ) + dx).toNat)
      = c (((y : ℤ) + dy).toNat * w + ((x : ℤ) + dx).toNat) + e * factor := by
  simp only [spread]
  rw [if_pos ⟨h1, h2, h3, h4⟩, Function.update_same]

theorem spread_causal_10 {w h x y j : ℕ} (hx : x < w) (hj : j ≤ y * w + x)
    (factor e : ℚ) (c : ℕ → ℚ) : spread w h x y 1 0 factor e c j = c j := by
  refine spread_apply_of_ne factor e c (fun a1 a2 a3 a4 => ?_)
  have e1 : ((y : ℤ) + 0).toNat = y := by omega
  have e2 : ((x : ℤ) + 1).toNat = x + 1 := by omega
  rw [e1, e2]
  omega

theorem spread_causal_m11 {w h x y j : ℕ} (hx : x < w) (hj : j ≤ y * w + x)
    (factor e : ℚ) (c : ℕ → ℚ) : spread w h x y (-1) 1 factor e c j = c j := by
  refine spread_apply_of_ne factor e c (fun a1 a2 a3 a4 => ?_)
  have e1 : ((y : ℤ) + 1).toNat = y + 1 := by omega
  have e2 : ((x : ℤ) + (-1)).toNat = x - 1 := by omega
  rw [e1, e2, Nat.succ_mul]
  omega

theorem spread_causal_01 {w h x y j : ℕ} (hx : x < w) (hj : j ≤ y * w + x)
    (factor e : ℚ) (c : ℕ → ℚ) : spread w h x y 0 1 factor e c j = c j := by
  refine spread_apply_of_ne factor e c (fun a1 a2 a3 a4 => ?_)
  have e1 : ((y : ℤ) + 1).toNat = y + 1 := by omega
  have e2 : ((x : ℤ) + 0).toNat = x := by omega
  rw [e1, e2, Nat.succ_mul]
  omega

theorem spread_causal_11 {w h x y j : ℕ} (hx : x < w) (hj : j ≤ y * w + x)
    (factor e : ℚ) (c : ℕ → ℚ) : spread w h x y 1 1 factor e c j = c j := by
  refine spread_apply_of_ne factor e c (fun a1 a2 a3 a4 => ?_)
  have e1 : ((y : ℤ) + 1).toNat = y + 1 := by omega
  have e2 : ((x : ℤ) + 1).toNat = x + 1 := by omega
  rw [e1, e2, Nat.succ_mul]
  omega

theorem ditherStep_apply_lt (w h y x j : ℕ) (c : ℕ → ℚ) (hx : x < w)
    (hj : j < y * w + x) : ditherStep w h y x c j = c j := by
  simp only [ditherStep]
  rw [spread_causal_11 hx (by omega), spread_causal_01 hx (by omega),
    spread_causal_m11 hx (by omega), spread_causal_10 hx (by omega),
    Function.update_noteq (by omega)]

theorem ditherStep_apply_idx (w h y x : ℕ) (c : ℕ → ℚ) (hx : x < w) :
    ditherStep w h y x c (y * w + x)
      = (if c (y * w + x) < 128 then (0 : ℚ) else 255) := by
  simp only [ditherStep]
  rw [spread_causal_11 hx le_rfl, spread_causal_01 hx le_rfl,
    spread_causal_m11 hx le_rfl, spread_causal_10 hx le_rfl,
    Function.update_same]

/-! ## Generic machinery for the nested raster loop -/

theorem foldl_induct {α σ : Type} (l : List α) (f : σ → α → σ) (P : σ → Prop)
    (hf : ∀ a ∈ l, ∀ s, P s → P (f s a)) (s : σ) (hs : P s) : P (l.foldl f s) := by
  induction l generalizing s with
  | nil => exact hs
  | cons hd tl ih =>
      exact ih (fun a ha s2 hx => hf a (List.mem_cons_of_mem _ ha) s2 hx) _
        (hf hd (List.mem_cons_self _ _) s hs)

theorem gridFold_pres {σ : Type} (step : ℕ → ℕ → σ → σ) (w h : ℕ) (P : σ → Prop)
    (hstep : ∀ y x s, y < h → x < w → P s → P (step y x s)) (s : σ) (hs : P s) :
    P (gridFold step w h s) := by
  unfold gridFold
  refine foldl_induct _ _ P (fun y hy s2 hx => ?_) s hs
  exact foldl_induct _ _ P (fun x hxmem s3 hs3 =>
    hstep y x s3 (List.mem_range.1 hy) (List.mem_range.1 hxmem) hs3) s2 hx

theorem gridFold_quantized (step : ℕ → ℕ → (ℕ → ℚ) → (ℕ → ℚ)) (quant : ℚ → ℚ) (w h : ℕ)
    (hlt : ∀ y x c j, y < h → x < w → j < y * w + x → step y x c j = c j)
    (hat : ∀ y x c, y < h → x < w → step y x c (y * w + x) = quant (c (y * w + x)))
    (c : ℕ → ℚ) : quantInv quant (h * w) (gridFold step w h c) := by
  have inner : ∀ y, y < h → ∀ x, x ≤ w → ∀ c2, quantInv quant (y * w) c2 →
      quantInv quant (y * w + x) ((List.range x).foldl (fun s x2 => step y x2 s) c2) := by
    intro y hy x
    induction x with
    | zero => intro _ c2 hc; simpa using hc
    | succ x ih =>
        intro hxw c2 hc
        rw [List.range_succ, List.foldl_append, List.foldl_cons, List.foldl_nil]
        intro j hj
        rcases Nat.lt_or_ge j (y * w + x) with hlt2 | hge
        · obtain ⟨v, hv⟩ := ih (by omega) c2 hc j hlt2
          exact ⟨v, by rw [hlt y x _ j hy (by omega) hlt2, hv]⟩
        · have hj2 : j = y * w + x := by omega
          subst hj2
          rw [hat y x _ hy (by omega)]
          exact ⟨_, rfl⟩
  have outer : ∀ y, y ≤ h → quantInv quant (y * w)
      ((List.range y).foldl
        (fun s y2 => (List.range w).foldl (fun s x => step y2 x s) s) c) := by
    intro y
    induction y with
    | zero =>
        intro _ j hj
        rw [Nat.zero_mul] at hj
        exact absurd hj (Nat.not_lt_zero j)
    | succ y ih =>
        intro hyh
        rw [List.range_succ, List.foldl_append, List.foldl_cons, List.foldl_nil]
        have h1 := inner y (by omega) w le_rfl _ (ih (by omega))
        intro j hj
        rw [Nat.succ_mul] at hj
        exact h1 j hj
  exact outer h le_rfl

/-! ## The lockstep RGB step is the three independent channel steps -/

theorem foldl_comp3 {α : Type} (f g b : α → (ℕ → ℚ) → (ℕ → ℚ)) (F : Chans → α → Chans)
    (hF : ∀ s a, F s a = (f a s.1, g a s.2.1, b a s.2.2)) (l : List α) (s : Chans) :
    l.foldl F s = (l.foldl (fun c a => f a c) s.1,
                   l.foldl (fun c a => g a c) s.2.1,
                   l.foldl (fun c a => b a c) s.2.2) := by
  induction l generalizing s with
  | nil => rfl
  | cons hd tl ih =>
      rw [List.foldl_cons, List.foldl_cons, List.foldl_cons, List.foldl_cons, hF, ih]

theorem gridFold_comp3 (stepR stepG stepB : ℕ → ℕ → (ℕ → ℚ) → (ℕ → ℚ))
    (step3 : ℕ → ℕ → Chans → Chans)
    (hstep : ∀ y x s, step3 y x s = (stepR y x s.1, stepG y x s.2.1, stepB y x s.2.2))
    (w h : ℕ) (s : Chans) :
    gridFold step3 w h s
      = (gridFold stepR w h s.1, gridFold stepG w h s.2.1, gridFold stepB w h s.2.2) := by
  unfold gridFold
  exact foldl_comp3
    (fun y c => (List.range w).foldl (fun c2 x => stepR y x c2) c)
    (fun y c => (List.range w).foldl (fun c2 x => stepG y x c2) c)
    (fun y c => (List.range w).foldl (fun c2 x => stepB y x c2) c)
    _
    (fun s2 y => foldl_comp3 (fun x c => stepR y x c) (fun x c => stepG y x c)
      (fun x c => stepB y x c) _ (fun s3 x => hstep y x s3) _ s2)
    _ s

theorem fsStepRGB_eq (w h y x : ℕ) (s : Chans) :
    fsStepRGB w h y x s
      = (fsStep qR w h y x s.1, fsStep qG w h y x s.2.1, fsStep qB w h y x s.2.2) := rfl

theorem fsPassRGB_eq (w h : ℕ) (s : Chans) :
    fsPassRGB w h s
      = (fsPass qR w h s.1, fsPass qG w h s.2.1, fsPass qB w h s.2.2) := by
  unfold fsPassRGB fsPass
  exact gridFold_comp3 _ _ _ _ (fun y x s2 => fsStepRGB_eq w h y x s2) w h s

theorem ditherStepRGB_eq (w h y x : ℕ) (s : Chans) :
    ditherStepRGB w h y x s
      = (ditherStep w h y x s.1, ditherStep w h y x s.2.1, ditherStep w h y x s.2.2) := rfl

theorem ditherPassRGB_eq (w h : ℕ) (s : Chans) :
    ditherPassRGB w h s
      = (ditherPass w h s.1, ditherPass w h s.2.1, ditherPass w h s.2.2) := by
  unfold ditherPassRGB ditherPass
  exact gridFold_comp3 _ _ _ _ (fun y x s2 => ditherStepRGB_eq w h y x s2) w h s

/-! ## Arithmetic facts about rounding, clamping and the quantizer -/

theorem jround_le_of_le {z : ℚ} {m : ℤ} (h : z ≤ (m : ℚ)) : jround z ≤ m := by
  unfold jround
  have h2 : z + 1/2 < ((m + 1 : ℤ) : ℚ) := by push_cast; linarith
  exact Int.lt_add_one_iff.1 (Int.floor_lt.2 h2)

theorem le_jround_of_le {z : ℚ} {m : ℤ} (h : (m : ℚ) ≤ z) : m ≤ jround z := by
  unfold jround
  exact Int.le_floor.2 (by linarith)

theorem jround_intCast (m : ℤ) : jround ((m : ℤ) : ℚ) = m :=
  le_antisymm (jround_le_of_le le_rfl) (le_jround_of_le le_rfl)

theorem jround_sub_lt (z : ℚ) : z - jround z < 1/2 := by
  have h := Int.lt_floor_add_one (z + 1/2)
  unfold jround
  push_cast at h ⊢
  linarith

theorem neg_half_le_jround_sub (z : ℚ) : -(1/2) ≤ z - jround z := by
  have h := Int.floor_le (z + 1/2)
  unfold jround
  linarith

theorem clampByte_of_range {z : ℤ} (h0 : 0 ≤ z) (h255 : z ≤ 255) :
    clampByte z = z.toNat := by
  unfold clampByte
  rw [min_eq_right h255, max_eq_right h0]

theorem clampByte_of_nonpos {z : ℤ} (h : z ≤ 0) : clampByte z = 0 := by
  unfold clampByte
  rw [min_eq_right (le_trans h (by norm_num)), max_eq_left h]
  rfl

theorem clampByte_of_ge {z : ℤ} (h : 255 ≤ z) : clampByte z = 255 := by
  unfold clampByte
  rw [min_eq_left h]
  rfl

theorem quantStep_pos {L : ℕ} (hL : 2 ≤ L) : 0 < quantStep L := by
  unfold quantStep
  have h1 : (2 : ℚ) ≤ (L : ℚ) := by exact_mod_cast hL
  have h2 : (0 : ℚ) < (L : ℚ) - 1 := by linarith
  positivity

theorem quantStep_mul_levels {L : ℕ} (hL : 2 ≤ L) :
    ((L : ℚ) - 1) * quantStep L = 255 := by
  unfold quantStep
  have h1 : (2 : ℚ) ≤ (L : ℚ) := by exact_mod_cast hL
  have h2 : ((L : ℚ) - 1) ≠ 0 := ne_of_gt (by linarith)
  field_simp

theorem clampByte_quantize_mem {L : ℕ} (hL : 2 ≤ L) (v : ℚ) :
    clampByte (jround (quantizeQ (quantStep L) v)) ∈ byteSet L := by
  have hs : 0 < quantStep L := quantStep_pos hL
  have hQ : quantizeQ (quantStep L) v
      = ((jround (v / quantStep L) : ℤ) : ℚ) * quantStep L := rfl
  set k : ℤ := jround (v / quantStep L) with hk
  rw [hQ]
  rcases lt_or_le k 0 with hneg | hpos
  · -- negative index: the clamp collapses to the k = 0 palette entry
    have hz : (k : ℚ) * quantStep L ≤ 0 := by
      have : (k : ℚ) ≤ 0 := by exact_mod_cast le_of_lt hneg
      exact mul_nonpos_of_nonpos_of_nonneg this (le_of_lt hs)
    have hr : jround ((k : ℚ) * quantStep L) ≤ 0 :=
      jround_le_of_le (by exact_mod_cast hz)
    rw [clampByte_of_nonpos hr]
    refine Finset.mem_image.2 ⟨0, Finset.mem_range.2 (by omega), ?_⟩
    rw [show ((0 : ℕ) : ℚ) * quantStep L = ((0 : ℤ) : ℚ) by push_cast; ring,
      jround_intCast]
    rfl
  · rcases lt_or_le k (L : ℤ) with hlt | hge
    · -- in-range index: the value is the k-th palette entry itself
      refine Finset.mem_image.2 ⟨k.toNat, Finset.mem_range.2 (by omega), ?_⟩
      rw [show ((k.toNat : ℕ) : ℚ) = (k : ℚ) by exact_mod_cast Int.toNat_of_nonneg hpos]
    · -- overflow index: the clamp collapses to the k = L-1 palette entry (255)
      have h255 : ((L : ℚ) - 1) * quantStep L = 255 := quantStep_mul_levels hL
      have hbig : (255 : ℚ) ≤ (k : ℚ) * quantStep L := by
        have hcast : (L : ℚ) ≤ (k : ℚ) := by exact_mod_cast hge
        have h1 : (L : ℚ) * quantStep L ≤ (k : ℚ) * quantStep L :=
          mul_le_mul_of_nonneg_right hcast (le_of_lt hs)
        have h2 : (L : ℚ) * quantStep L = 255 + quantStep L := by
          rw [show (L : ℚ) * quantStep L = ((L : ℚ) - 1) * quantStep L + quantStep L by ring,
            h255]
        linarith
      have hr : (255 : ℤ) ≤ jround ((k : ℚ) * quantStep L) :=
        le_jround_of_le (by exact_mod_cast hbig)
      rw [clampByte_of_ge hr]
      refine Finset.mem_image.2 ⟨L - 1, Finset.mem_range.2 (by omega), ?_⟩
      rw [show (((L - 1 : ℕ)) : ℚ) = (L : ℚ) - 1 by
        have : (1 : ℕ) ≤ L := by omega
        push_cast [this]; ring]
      rw [h255, show (255 : ℚ) = ((255 : ℤ) : ℚ) by norm_num, jround_intCast]
      rfl

theorem jround_mono {z z2 : ℚ} (h : z ≤ z2) : jround z ≤ jround z2 :=
  Int.floor_le_floor (by linarith)

theorem jround_add_one (z : ℚ) : jround (z + 1) = jround z + 1 := by
  unfold jround
  rw [show z + 1 + 1/2 = (z + 1/2) + 1 by ring, Int.floor_add_one]

theorem one_le_quantStep {L : ℕ} (hL : 2 ≤ L) (hL2 : L ≤ 256) : 1 ≤ quantStep L := by
  unfold quantStep
  have h1 : (2 : ℚ) ≤ (L : ℚ) := by exact_mod_cast hL
  have h2 : (L : ℚ) ≤ 256 := by exact_mod_cast hL2
  rw [le_div_iff₀ (by linarith)]
  linarith

theorem byteSet_strictMono {L : ℕ} (hL2 : L ≤ 256) {a b : ℕ} (hab : a < b) (hbL : b < L) :
    clampByte (jround ((a : ℚ) * quantStep L)) < clampByte (jround ((b : ℚ) * quantStep L)) := by
  have hL : 2 ≤ L := by omega
  have hs : 0 < quantStep L := quantStep_pos hL
  have hs1 : 1 ≤ quantStep L := one_le_quantStep hL hL2
  have ha0 : (0 : ℤ) ≤ jround ((a : ℚ) * quantStep L) :=
    le_jround_of_le (by positivity)
  have hb255 : jround ((b : ℚ) * quantStep L) ≤ 255 := by
    apply jround_le_of_le
    have hble : (b : ℚ) ≤ (L : ℚ) - 1 := by
      have hc : (b : ℚ) + 1 ≤ (L : ℚ) := by exact_mod_cast hbL
      linarith
    have h1 := mul_le_mul_of_nonneg_right hble (le_of_lt hs)
    rw [quantStep_mul_levels hL] at h1
    push_cast
    linarith
  have hstep : jround ((a : ℚ) * quantStep L) + 1 ≤ jround ((b : ℚ) * quantStep L) := by
    have hba : (a : ℚ) + 1 ≤ (b : ℚ) := by exact_mod_cast hab
    have h2 : ((a : ℚ) + 1) * quantStep L ≤ (b : ℚ) * quantStep L :=
      mul_le_mul_of_nonneg_right hba (le_of_lt hs)
    have h3 : ((a : ℚ) + 1) * quantStep L = (a : ℚ) * quantStep L + quantStep L := by ring
    have h4 : (a : ℚ) * quantStep L + 1 ≤ (b : ℚ) * quantStep L := by linarith
    calc jround ((a : ℚ) * quantStep L) + 1
        = jround ((a : ℚ) * quantStep L + 1) := (jround_add_one _).symm
      _ ≤ jround ((b : ℚ) * quantStep L) := jround_mono h4
  unfold clampByte
  omega

theorem byteSet_card {L : ℕ} (hL : 2 ≤ L) (hL2 : L ≤ 256) : (byteSet L).card = L := by
  unfold byteSet
  rw [Finset.card_image_of_injOn, Finset.card_range]
  intro a ha b hb hab
  have ha2 : a < L := by simpa using ha
  have hb2 : b < L := by simpa using hb
  rcases Nat.lt_trichotomy a b with h | h | h
  · exact absurd hab (ne_of_lt (byteSet_strictMono hL2 h hb2))
  · exact h
  · exact absurd hab.symm (ne_of_lt (byteSet_strictMono hL2 h ha2))

theorem fsPass_quantized (q : ℚ) (w h : ℕ) (c : ℕ → ℚ) (j : ℕ) (hj : j < h * w) :
    ∃ v, fsPass q w h c j = quantizeQ q v :=
  gridFold_quantized (fun y x => fsStep q w h y x) (quantizeQ q) w h
    (fun y x c2 j2 hy hx hlt => fsStep_apply_lt q w h y x j2 c2 hx hlt)
    (fun y x c2 hy hx => fsStep_apply_idx q w h y x c2 hx) c j hj

theorem ditherPass_quantized (w h : ℕ) (c : ℕ → ℚ) (j : ℕ) (hj : j < h * w) :
    ∃ v : ℚ, ditherPass w h c j = (if v < 128 then (0 : ℚ) else 255) :=
  gridFold_quantized (fun y x => ditherStep w h y x)
    (fun v => if v < 128 then (0 : ℚ) else 255) w h
    (fun y x c2 j2 hy hx hlt => ditherStep_apply_lt w h y x j2 c2 hx hlt)
    (fun y x c2 hy hx => ditherStep_apply_idx w h y x c2 hx) c j hj

theorem floydSteinbergRGBA_byte (buf : ℕ → ℕ) (w h i : ℕ) (hi : i < w * h) :
    floydSteinbergRGBA buf w h (4 * i)
        = clampByte (jround (fsPass qR w h (initChans buf).1 i)) ∧
    floydSteinbergRGBA buf w h (4 * i + 1)
        = clampByte (jround (fsPass qG w h (initChans buf).2.1 i)) ∧
    floydSteinbergRGBA buf w h (4 * i + 2)
        = clampByte (jround (fsPass qB w h (initChans buf).2.2 i)) ∧
    floydSteinbergRGBA buf w h (4 * i + 3) = 255 := by
  simp only [floydSteinbergRGBA, fsPassRGB_eq]
  refine ⟨?_, ?_, ?_, ?_⟩
  · rw [if_pos (by omega : 4 * i < 4 * (w * h)), if_pos (by omega : 4 * i % 4 = 0),
      show 4 * i / 4 = i by omega]
  · rw [if_pos (by omega : 4 * i + 1 < 4 * (w * h)), if_neg (by omega : ¬(4 * i + 1) % 4 = 0),
      if_pos (by omega : (4 * i + 1) % 4 = 1), show (4 * i + 1) / 4 = i by omega]
  · rw [if_pos (by omega : 4 * i + 2 < 4 * (w * h)), if_neg (by omega : ¬(4 * i + 2) % 4 = 0),
      if_neg (by omega : ¬(4 * i + 2) % 4 = 1), if_pos (by omega : (4 * i + 2) % 4 = 2),
      show (4 * i + 2) / 4 = i by omega]
  · rw [if_pos (by omega : 4 * i + 3 < 4 * (w * h)), if_neg (by omega : ¬(4 * i + 3) % 4 = 0),
      if_neg (by omega : ¬(4 * i + 3) % 4 = 1), if_neg (by omega : ¬(4 * i + 3) % 4 = 2)]

theorem dither_byte (buf : ℕ → ℕ) (w h i : ℕ) (hi : i < w * h) :
    dither buf w h (4 * i) = toUint8 (ditherPass w h (initChans buf).1 i) ∧
    dither buf w h (4 * i + 1) = toUint8 (ditherPass w h (initChans buf).2.1 i) ∧
    dither buf w h (4 * i + 2) = toUint8 (ditherPass w h (initChans buf).2.2 i) ∧
    dither buf w h (4 * i + 3) = 255 := by
  simp only [dither, ditherPassRGB_eq]
  refine ⟨?_, ?_, ?_, ?_⟩
  · rw [if_pos (by omega : 4 * i < 4 * (w * h)), if_pos (by omega : 4 * i % 4 = 0),
      show 4 * i / 4 = i by omega]
  · rw [if_pos (by omega : 4 * i + 1 < 4 * (w * h)), if_neg (by omega : ¬(4 * i + 1) % 4 = 0),
      if_pos (by omega : (4 * i + 1) % 4 = 1), show (4 * i + 1) / 4 = i by omega]
  · rw [if_pos (by omega : 4 * i + 2 < 4 * (w * h)), if_neg (by omega : ¬(4 * i + 2) % 4 = 0),
      if_neg (by omega : ¬(4 * i + 2) % 4 = 1), if_pos (by omega : (4 * i + 2) % 4 = 2),
      show (4 * i + 2) / 4 = i by omega]
  · rw [if_pos (by omega : 4 * i + 3 < 4 * (w * h)), if_neg (by omega : ¬(4 * i + 3) % 4 = 0),
      if_neg (by omega : ¬(4 * i + 3) % 4 = 1), if_neg (by omega : ¬(4 * i + 3) % 4 = 2)]

theorem byteSet_eight : byteSet 8 = {0, 36, 73, 109, 146, 182, 219, 255} := by
  have h0 : clampByte (jround (((0 : ℕ) : ℚ) * quantStep 8)) = 0 := by
    rw [show jround (((0 : ℕ) : ℚ) * quantStep 8) = 0 by
      unfold jround quantStep; rw [Int.floor_eq_iff]; norm_num]
    decide
  have h1 : clampByte (jround (((1 : ℕ) : ℚ) * quantStep 8)) = 36 := by
    rw [show jround (((1 : ℕ) : ℚ) * quantStep 8) = 36 by
      unfold jround quantStep; rw [Int.floor_eq_iff]; norm_num]
    decide
  have h2 : clampByte (jround (((2 : ℕ) : ℚ) * quantStep 8)) = 73 := by
    rw [show jround (((2 : ℕ) : ℚ) * quantStep 8) = 73 by
      unfold jround quantStep; rw [Int.floor_eq_iff]; norm_num]
    decide
  have h3 : clampByte (jround (((3 : ℕ) : ℚ) * quantStep 8)) = 109 := by
    rw [show jround (((3 : ℕ) : ℚ) * quantStep 8) = 109 by
      unfold jround quantStep; rw [Int.floor_eq_iff]; norm_num]
    decide
  have h4 : clampByte (jround (((4 : ℕ) : ℚ) * quantStep 8)) = 146 := by
    rw [show jround (((4 : ℕ) : ℚ) * quantStep 8) = 146 by
      unfold jround quantStep; rw [Int.floor_eq_iff]; norm_num]
    decide
  have h5 : clampByte (jround (((5 : ℕ) : ℚ) * quantStep 8)) = 182 := by
    rw [show jround (((5 : ℕ) : ℚ) * quantStep 8) = 182 by
      unfold jround quantStep; rw [Int.floor_eq_iff]; norm_num]
    decide
  have h6 : clampByte (jround (((6 : ℕ) : ℚ) * quantStep 8)) = 219 := by
    rw [show jround (((6 : ℕ) : ℚ) * quantStep 8) = 219 by
      unfold jround quantStep; rw [Int.floor_eq_iff]; norm_num]
    decide
  have h7 : clampByte (jround (((7 : ℕ) : ℚ) * quantStep 8)) = 255 := by
    rw [show jround (((7 : ℕ) : ℚ) * quantStep 8) = 255 by
      unfold jround quantStep; rw [Int.floor_eq_iff]; norm_num]
    decide
  unfold byteSet
  rw [show Finset.range 8 = ({0, 1, 2, 3, 4, 5, 6, 7} : Finset ℕ) from by decide]
  simp only [Finset.image_insert, Finset.image_singleton]
  rw [h0, h1, h2, h3, h4, h5, h6, h7]

theorem byteSet_four : byteSet 4 = {0, 85, 170, 255} := by
  have h0 : clampByte (jround (((0 : ℕ) : ℚ) * quantStep 4)) = 0 := by
    rw [show jround (((0 : ℕ) : ℚ) * quantStep 4) = 0 by
      unfold jround quantStep; rw [Int.floor_eq_iff]; norm_num]
    decide
  have h1 : clampByte (jround (((1 : ℕ) : ℚ) * quantStep 4)) = 85 := by
    rw [show jround (((1 : ℕ) : ℚ) * quantStep 4) = 85 by
      unfold jround quantStep; rw [Int.floor_eq_iff]; norm_num]
    decide
  have h2 : clampByte (jround (((2 : ℕ) : ℚ) * quantStep 4)) = 170 := by
    rw [show jround (((2 : ℕ) : ℚ) * quantStep 4) = 170 by
      unfold jround quantStep; rw [Int.floor_eq_iff]; norm_num]
    decide
  have h3 : clampByte (jround (((3 : ℕ) : ℚ) * quantStep 4)) = 255 := by
    rw [show jround (((3 : ℕ) : ℚ) * quantStep 4) = 255 by
      unfold jround quantStep; rw [Int.floor_eq_iff]; norm_num]
    decide
  unfold byteSet
  rw [show Finset.range 4 = ({0, 1, 2, 3} : Finset ℕ) from by decide]
  simp only [Finset.image_insert, Finset.image_singleton]
  rw [h0, h1, h2, h3]

/-- C1: For every input RGBA byte buffer of dimensions `w*h` and valid
per-channel level counts (`levels ≥ 2`), every color channel value in
the byte buffer after the diffusion (`floydSteinbergRGBA`) lies in the
`levels`-element palette of rounded evenly spaced values
`round(k * 255/(levels-1))`, `k < levels` (exactly `levels` distinct
values for all level counts up to 256); in particular, for the code's
levels `(8,8,4)` the distinct R values are a subset of
`{0, 36, 73, 109, 146, 182, 219, 255}` (computed from `255/7`). -/
theorem C1_diffuse_output_palette (w h : ℕ) (buf : ℕ → ℕ) (i : ℕ) (hi : i < w * h) :
    (∀ L, 2 ≤ L → ∀ (c : ℕ → ℚ) (j : ℕ), j < h * w →
        clampByte (jround (fsPass (quantStep L) w h c j)) ∈ byteSet L) ∧
    (∀ L, 2 ≤ L → L ≤ 256 → (byteSet L).card = L) ∧
    floydSteinbergRGBA buf w h (4 * i) ∈ byteSet levelsR ∧
    floydSteinbergRGBA buf w h (4 * i + 1) ∈ byteSet levelsG ∧
    floydSteinbergRGBA buf w h (4 * i + 2) ∈ byteSet levelsB ∧
    byteSet levelsR = {0, 36, 73, 109, 146, 182, 219, 255} ∧
    byteSet levelsB = {0, 85, 170, 255} := by
  have hq : ∀ L, 2 ≤ L → ∀ (c : ℕ → ℚ) (j : ℕ), j < h * w →
      clampByte (jround (fsPass (quantStep L) w h c j)) ∈ byteSet L := by
    intro L hL c j hj
    obtain ⟨v, hv⟩ := fsPass_quantized (quantStep L) w h c j hj
    rw [hv]
    exact clampByte_quantize_mem hL v
  obtain ⟨hR, hG, hB, _⟩ := floydSteinbergRGBA_byte buf w h i hi
  have hi2 : i < h * w := by rw [Nat.mul_comm h w]; exact hi
  refine ⟨hq, fun L hL hL2 => byteSet_card hL hL2, ?_, ?_, ?_, byteSet_eight, byteSet_four⟩
  · rw [hR]; exact hq 8 (by norm_num) _ i hi2
  · rw [hG]; exact hq 8 (by norm_num) _ i hi2
  · rw [hB]; exact hq 4 (by norm_num) _ i hi2

/-- Witness for C1: a concrete 1×1 mid-gray buffer. -/
theorem C1_diffuse_output_palette_witness :
    floydSteinbergRGBA (fun _ => 128) 1 1 (4 * 0) ∈ byteSet levelsR :=
  (C1_diffuse_output_palette 1 1 (fun _ => 128) 0 (by decide)).2.2.1

/-- C3: The per-channel quantizer computes `step = 255/(levels-1)` and
returns `round(v/step) * step`; for `v ∈ [0,255]` and `levels ≥ 2` the
result is one of the `levels` evenly spaced values `k * step`, `k <
levels`, and lies in `[0,255]` without any additional clamp. -/
theorem C3_quantizer_contract (L : ℕ) (hL : 2 ≤ L) (v : ℚ) (h0 : 0 ≤ v) (h255 : v ≤ 255) :
    quantizeQ (quantStep L) v = ((jround (v / quantStep L) : ℤ) : ℚ) * quantStep L ∧
    (∃ k : ℕ, k < L ∧ quantizeQ (quantStep L) v = (k : ℚ) * quantStep L) ∧
    0 ≤ quantizeQ (quantStep L) v ∧ quantizeQ (quantStep L) v ≤ 255 := by
  have hs : 0 < quantStep L := quantStep_pos hL
  set k : ℤ := jround (v / quantStep L) with hk
  have hk0 : (0 : ℤ) ≤ k := le_jround_of_le (by positivity)
  have hvs : v / quantStep L ≤ (L : ℚ) - 1 := by
    rw [div_le_iff₀ hs, quantStep_mul_levels hL]
    exact h255
  have hkL : k ≤ (L : ℤ) - 1 := jround_le_of_le (by push_cast; linarith)
  have hkQ : ((k.toNat : ℕ) : ℚ) = (k : ℚ) := by exact_mod_cast Int.toNat_of_nonneg hk0
  have hQ : quantizeQ (quantStep L) v = (k : ℚ) * quantStep L := rfl
  have hkQ0 : (0 : ℚ) ≤ (k : ℚ) := by exact_mod_cast hk0
  refine ⟨rfl, ⟨k.toNat, by omega, by rw [hQ, hkQ]⟩, ?_, ?_⟩
  · rw [hQ]
    exact mul_nonneg hkQ0 hs.le
  · rw [hQ]
    have hc : (k : ℚ) ≤ (L : ℚ) - 1 := by
      have hcast : ((k : ℤ) : ℚ) ≤ (((L : ℤ) - 1 : ℤ) : ℚ) := by exact_mod_cast hkL
      push_cast at hcast
      linarith
    have hmul := mul_le_mul_of_nonneg_right hc hs.le
    rw [quantStep_mul_levels hL] at hmul
    exact hmul

/-- Witness for C3 at `levels = 8`, `v = 128`. -/
theorem C3_quantizer_contract_witness :
    0 ≤ quantizeQ (quantStep 8) 128 ∧ quantizeQ (quantStep 8) 128 ≤ 255 :=
  ⟨(C3_quantizer_contract 8 (by norm_num) 128 (by norm_num) (by norm_num)).2.2.1,
   (C3_quantizer_contract 8 (by norm_num) 128 (by norm_num) (by norm_num)).2.2.2⟩

/-! ## Raster order of the diffusion pass -/

theorem foldl_flatMap {α β σ : Type} (l : List α) (g : α → List β) (f : σ → β → σ) (s : σ) :
    (l.flatMap g).foldl f s = l.foldl (fun s2 a => (g a).foldl f s2) s := by
  induction l generalizing s with
  | nil => rfl
  | cons hd tl ih =>
      rw [List.flatMap_cons, List.foldl_append, List.foldl_cons, ih]

theorem fsPass_eq_pixelList (q : ℚ) (w h : ℕ) (c : ℕ → ℚ) :
    fsPass q w h c = (pixelList w h).foldl (fun c2 p => fsStep q w h p.1 p.2 c2) c := by
  unfold fsPass gridFold pixelList
  rw [foldl_flatMap]
  congr 1
  funext s y
  rw [List.foldl_map]

theorem pixelList_map_key (w h : ℕ) :
    (pixelList w h).map (fun p => p.1 * w + p.2) = List.range (h * w) := by
  induction h with
  | zero => simp [pixelList]
  | succ h ih =>
      unfold pixelList
      unfold pixelList at ih
      rw [List.range_succ, List.flatMap_append, List.map_append, ih]
      have h2 : (([h] : List ℕ).flatMap fun y => (List.range w).map fun x => (y, x))
          = (List.range w).map fun x => (h, x) := by simp
      rw [h2, List.map_map]
      have h3 : ((fun p : ℕ × ℕ => p.1 * w + p.2) ∘ fun x => (h, x))
          = fun x => h * w + x := by
        funext x; rfl
      rw [h3, Nat.succ_mul, List.range_add]

/-- C2: The error-diffusion pass of `floydSteinbergRGBA` visits pixels
in row-major order (the visit keys `y*w + x` enumerate `0, 1, ...,
h*w - 1` in order) and, at each pixel, quantizes the current value and
propagates the signed error to exactly the four causal neighbors with
weights `7/16` right, `3/16` below-left, `5/16` below, `1/16`
below-right; out-of-bounds neighbors are skipped (no wraparound, no
redistribution) and every other slot is untouched. -/
theorem C2_diffusion_kernel (q : ℚ) (w h x y : ℕ) (hx : x < w) (hy : y < h) (c : ℕ → ℚ) :
    (fsPass q w h c = (pixelList w h).foldl (fun c2 p => fsStep q w h p.1 p.2 c2) c) ∧
    ((pixelList w h).map (fun p => p.1 * w + p.2) = List.range (h * w)) ∧
    fsStep q w h y x c (y * w + x) = quantizeQ q (c (y * w + x)) ∧
    (x + 1 < w →
      fsStep q w h y x c (y * w + x + 1)
        = c (y * w + x + 1) + (c (y * w + x) - quantizeQ q (c (y * w + x))) * (7/16)) ∧
    (1 ≤ x → y + 1 < h →
      fsStep q w h y x c (y * w + x + w - 1)
        = c (y * w + x + w - 1) + (c (y * w + x) - quantizeQ q (c (y * w + x))) * (3/16)) ∧
    (y + 1 < h →
      fsStep q w h y x c (y * w + x + w)
        = c (y * w + x + w) + (c (y * w + x) - quantizeQ q (c (y * w + x))) * (5/16)) ∧
    (x + 1 < w → y + 1 < h →
      fsStep q w h y x c (y * w + x + w + 1)
        = c (y * w + x + w + 1) + (c (y * w + x) - quantizeQ q (c (y * w + x))) * (1/16)) ∧
    (∀ j, j ≠ y * w + x →
      (x + 1 < w → j ≠ y * w + x + 1) →
      (1 ≤ x ∧ y + 1 < h → j ≠ y * w + x + w - 1) →
      (y + 1 < h → j ≠ y * w + x + w) →
      (x + 1 < w ∧ y + 1 < h → j ≠ y * w + x + w + 1) →
      fsStep q w h y x c j = c j) :=
  ⟨fsPass_eq_pixelList q w h c, pixelList_map_key w h,
   fsStep_apply_idx q w h y x c hx,
   fun hg => fsStep_apply_right q w h y x c hg,
   fun h1 h2 => fsStep_apply_belowleft q w h y x c hx ⟨h1, h2⟩,
   fun hg => fsStep_apply_below q w h y x c hx hg,
   fun h1 h2 => fsStep_apply_belowright q w h y x c ⟨h1, h2⟩,
   fun j h0 h1 h2 h3 h4 => fsStep_apply_other q w h y x j c h0 h1 h2 h3 h4⟩

/-- Witness for C2 at `w = h = 2`, pixel `(0,0)`, zero plane. -/
theorem C2_diffusion_kernel_witness :
    fsStep 1 2 2 0 0 (fun _ => (0 : ℚ)) (0 * 2 + 0)
      = quantizeQ 1 ((fun _ => (0 : ℚ)) (0 * 2 + 0)) :=
  (C2_diffusion_kernel 1 2 2 0 0 (by decide) (by decide) (fun _ => (0 : ℚ))).2.2.1

/-- C4: After the diffusion pass, `floydSteinbergRGBA` writes each
color channel back as `Math.max(0, Math.min(255, Math.round(v)))` (the
rounded working value clamped to `[0,255]`) and sets the alpha byte of
every pixel to 255 unconditionally; the clamp guarantees every written
byte is at most 255 and acts as the identity on in-range values. -/
theorem C4_writeback_clamp_alpha (w h : ℕ) (buf : ℕ → ℕ) (i : ℕ) (hi : i < w * h) :
    floydSteinbergRGBA buf w h (4 * i)
        = clampByte (jround (fsPass qR w h (initChans buf).1 i)) ∧
    floydSteinbergRGBA buf w h (4 * i + 1)
        = clampByte (jround (fsPass qG w h (initChans buf).2.1 i)) ∧
    floydSteinbergRGBA buf w h (4 * i + 2)
        = clampByte (jround (fsPass qB w h (initChans buf).2.2 i)) ∧
    floydSteinbergRGBA buf w h (4 * i + 3) = 255 ∧
    (∀ z : ℤ, clampByte z ≤ 255) ∧
    (∀ z : ℤ, 0 ≤ z → z ≤ 255 → clampByte z = z.toNat) := by
  obtain ⟨hR, hG, hB, hA⟩ := floydSteinbergRGBA_byte buf w h i hi
  refine ⟨hR, hG, hB, hA, ?_, fun z h0 h255 => clampByte_of_range h0 h255⟩
  intro z
  unfold clampByte
  omega

/-- Witness for C4: the alpha byte of the single pixel of a 1×1 black
buffer is forced to 255. -/
theorem C4_writeback_clamp_alpha_witness :
    floydSteinbergRGBA (fun _ => 0) 1 1 (4 * 0 + 3) = 255 :=
  (C4_writeback_clamp_alpha 1 1 (fun _ => 0) 0 (by decide)).2.2.2.1

/-- C10: In the two-level `dither` variant (threshold 128) every color
channel byte written back through the unclamped `Uint8Array` store is
exactly 0 or 255 and the alpha byte is 255: a pixel visited in raster
order is set to 0/255 and every in-bounds spread target lies strictly
later in raster order, so a finalized value is never modified again and
the byte write cannot overflow or wrap. -/
theorem C10_dither_binary_no_clamp (w h : ℕ) (buf : ℕ → ℕ) (i : ℕ) (hi : i < w * h) :
    (dither buf w h (4 * i) = 0 ∨ dither buf w h (4 * i) = 255) ∧
    (dither buf w h (4 * i + 1) = 0 ∨ dither buf w h (4 * i + 1) = 255) ∧
    (dither buf w h (4 * i + 2) = 0 ∨ dither buf w h (4 * i + 2) = 255) ∧
    dither buf w h (4 * i + 3) = 255 ∧
    (∀ (y2 x2 j : ℕ) (c : ℕ → ℚ), x2 < w → j < y2 * w + x2 →
        ditherStep w h y2 x2 c j = c j) ∧
    (∀ (y2 x2 : ℕ) (dx dy : ℤ), x2 < w →
      ((dx, dy) = (1, 0) ∨ (dx, dy) = (-1, 1) ∨ (dx, dy) = (0, 1) ∨ (dx, dy) = (1, 1)) →
      0 ≤ (x2 : ℤ) + dx → (x2 : ℤ) + dx < (w : ℤ) →
      0 ≤ (y2 : ℤ) + dy → (y2 : ℤ) + dy < (h : ℤ) →
      y2 * w + x2 < ((y2 : ℤ) + dy).toNat * w + ((x2 : ℤ) + dx).toNat) := by
  have t0 : toUint8 (0 : ℚ) = 0 := by norm_num [toUint8, jtrunc]
  have t255 : toUint8 (255 : ℚ) = 255 := by
    norm_num [toUint8, jtrunc]
    decide
  obtain ⟨hR, hG, hB, hA⟩ := dither_byte buf w h i hi
  have hi2 : i < h * w := by rw [Nat.mul_comm h w]; exact hi
  have hbin : ∀ c : ℕ → ℚ, toUint8 (ditherPass w h c i) = 0 ∨ toUint8 (ditherPass w h c i) = 255 := by
    intro c
    obtain ⟨v, hv⟩ := ditherPass_quantized w h c i hi2
    rw [hv]
    by_cases hc : v < 128
    · left; rw [if_pos hc]; exact t0
    · right; rw [if_neg hc]; exact t255
  refine ⟨by rw [hR]; exact hbin _, by rw [hG]; exact hbin _, by rw [hB]; exact hbin _, hA,
    fun y2 x2 j c hx2 hj => ditherStep_apply_lt w h y2 x2 j c hx2 hj, ?_⟩
  intro y2 x2 dx dy hx2 hmem a1 a2 a3 a4
  rcases hmem with hcase | hcase | hcase | hcase
  · injection hcase with hdx hdy
    subst hdx; subst hdy
    rw [show ((y2 : ℤ) + 0).toNat = y2 by omega, show ((x2 : ℤ) + 1).toNat = x2 + 1 by omega]
    omega
  · injection hcase with hdx hdy
    subst hdx; subst hdy
    rw [show ((y2 : ℤ) + 1).toNat = y2 + 1 by omega,
      show ((x2 : ℤ) + (-1)).toNat = x2 - 1 by omega, Nat.succ_mul]
    omega
  · injection hcase with hdx hdy
    subst hdx; subst hdy
    rw [show ((y2 : ℤ) + 1).toNat = y2 + 1 by omega, show ((x2 : ℤ) + 0).toNat = x2 by omega,
      Nat.succ_mul]
    omega
  · injection hcase with hdx hdy
    subst hdx; subst hdy
    rw [show ((y2 : ℤ) + 1).toNat = y2 + 1 by omega, show ((x2 : ℤ) + 1).toNat = x2 + 1 by omega,
      Nat.succ_mul]
    omega

/-- Witness for C10: the single pixel of a 1×1 mid-gray buffer. -/
theorem C10_dither_binary_no_clamp_witness :
    dither (fun _ => 128) 1 1 (4 * 0) = 0 ∨ dither (fun _ => 128) 1 1 (4 * 0) = 255 :=
  (C10_dither_binary_no_clamp 1 1 (fun _ => 128) 0 (by decide)).1

/-! ## Energy conservation of the diffusion pass -/

theorem idx_lt_grid {w h y x : ℕ} (hx : x < w) (hy : y < h) : y * w + x < h * w :=
  calc y * w + x < y * w + w := by omega
    _ = (y + 1) * w := (Nat.succ_mul y w).symm
    _ ≤ h * w := Nat.mul_le_mul_right w hy

theorem chanSum_fsStep (q : ℚ) (w h y x : ℕ) (c : ℕ → ℚ) (hx : x < w) (hy : y < h) :
    chanSum (h * w) (fsStep q w h y x c)
      = chanSum (h * w) c
        - (c (y * w + x) - quantizeQ q (c (y * w + x))) * droppedWeight w h y x := by
  simp only [fsStep]
  rw [chanSum_diffuseTo _ _ _ _ (fun hg => by
      have hb := idx_lt_grid (show x + 1 < w from hg.1) (show y + 1 < h from hg.2)
      rw [Nat.succ_mul] at hb
      omega),
    chanSum_diffuseTo _ _ _ _ (fun hg => by
      have hb := idx_lt_grid hx (show y + 1 < h from hg)
      rw [Nat.succ_mul] at hb
      omega),
    chanSum_diffuseTo _ _ _ _ (fun hg => by
      have hb := idx_lt_grid (show x - 1 < w by omega) (show y + 1 < h from hg.2)
      rw [Nat.succ_mul] at hb
      omega),
    chanSum_diffuseTo _ _ _ _ (fun hg => by
      have hb := idx_lt_grid (show x + 1 < w from hg) hy
      omega),
    chanSum_update _ _ _ _ (idx_lt_grid hx hy)]
  unfold droppedWeight
  split_ifs <;> ring

theorem foldl_fst {α β γ : Type} (l : List α) (f : α → β → β) (g : α → β × γ → γ) (p : β × γ) :
    (l.foldl (fun p2 a => (f a p2.1, g a p2)) p).1 = l.foldl (fun b a => f a b) p.1 := by
  induction l generalizing p with
  | nil => rfl
  | cons hd tl ih => rw [List.foldl_cons, List.foldl_cons, ih]

theorem fsPassD_fst (q : ℚ) (w h : ℕ) (cd : (ℕ → ℚ) × ℚ) :
    (fsPassD q w h cd).1 = fsPass q w h cd.1 := by
  have hinner : ∀ (y : ℕ) (p : (ℕ → ℚ) × ℚ),
      ((List.range w).foldl (fun s x => fsStepD q w h y x s) p)
        = ((List.range w).foldl (fun c x => fsStep q w h y x c) p.1,
           ((List.range w).foldl (fun s x => fsStepD q w h y x s) p).2) := by
    intro y p
    have h1 : ((List.range w).foldl (fun s x => fsStepD q w h y x s) p).1
        = (List.range w).foldl (fun c x => fsStep q w h y x c) p.1 :=
      foldl_fst (List.range w) (fun x c => fsStep q w h y x c)
        (fun x p2 => p2.2 + (p2.1 (y * w + x) - quantizeQ q (p2.1 (y * w + x)))
          * droppedWeight w h y x) p
    rw [← h1]
  unfold fsPassD fsPass gridFold
  rw [show (fun (s : (ℕ → ℚ) × ℚ) (y : ℕ) =>
        (List.range w).foldl (fun s2 x => fsStepD q w h y x s2) s)
      = fun s y => ((List.range w).foldl (fun c x => fsStep q w h y x c) s.1,
          ((List.range w).foldl (fun s2 x => fsStepD q w h y x s2) s).2) from
    funext fun s => funext fun y => hinner y s]
  exact foldl_fst (List.range h)
    (fun y c => (List.range w).foldl (fun c2 x => fsStep q w h y x c2) c)
    (fun y p => ((List.range w).foldl (fun s2 x => fsStepD q w h y x s2) p).2) cd

theorem fsPassD_conserves (q : ℚ) (w h : ℕ) (c : ℕ → ℚ) :
    chanSum (h * w) (fsPassD q w h (c, 0)).1 + (fsPassD q w h (c, 0)).2
      = chanSum (h * w) c := by
  have hstep : ∀ y x cd, y < h → x < w →
      (chanSum (h * w) (Prod.fst cd) + Prod.snd cd = chanSum (h * w) c) →
      (chanSum (h * w) (fsStepD q w h y x cd).1 + (fsStepD q w h y x cd).2
        = chanSum (h * w) c) := by
    intro y x cd hy hx hcd
    show chanSum (h * w) (fsStep q w h y x cd.1)
        + (cd.2 + (cd.1 (y * w + x) - quantizeQ q (cd.1 (y * w + x)))
            * droppedWeight w h y x)
      = chanSum (h * w) c
    rw [chanSum_fsStep q w h y x cd.1 hx hy]
    linarith
  exact gridFold_pres (fun y x => fsStepD q w h y x) w h
    (fun cd => chanSum (h * w) cd.1 + cd.2 = chanSum (h * w) c)
    hstep (c, 0) (by simp)

theorem droppedWeight_interior (w h y x : ℕ) (h1 : 1 ≤ x) (h2 : x + 1 < w) (h3 : y + 1 < h) :
    droppedWeight w h y x = 0 := by
  unfold droppedWeight
  rw [if_pos h2, if_pos ⟨h1, h3⟩, if_pos h3, if_pos ⟨h2, h3⟩]
  ring

theorem quantize_err_bound (L : ℕ) (hL : 2 ≤ L) (v : ℚ) :
    |v - quantizeQ (quantStep L) v| ≤ quantStep L / 2 := by
  have hs : 0 < quantStep L := quantStep_pos hL
  have hs2 : quantStep L ≠ 0 := ne_of_gt hs
  have hQ : quantizeQ (quantStep L) v
      = (jround (v / quantStep L) : ℚ) * quantStep L := rfl
  have hv : v - quantizeQ (quantStep L) v
      = (v / quantStep L - (jround (v / quantStep L) : ℚ)) * quantStep L := by
    rw [hQ, sub_mul, div_mul_cancel₀ v hs2]
  have hub : v / quantStep L - (jround (v / quantStep L) : ℚ) < 1/2 := jround_sub_lt _
  have hlb : -(1/2) ≤ v / quantStep L - (jround (v / quantStep L) : ℚ) :=
    neg_half_le_jround_sub _
  rw [hv, abs_mul, abs_of_pos hs]
  have habs : |v / quantStep L - (jround (v / quantStep L) : ℚ)| ≤ 1/2 :=
    abs_le.2 ⟨hlb, le_of_lt hub⟩
  calc |v / quantStep L - (jround (v / quantStep L) : ℚ)| * quantStep L
      ≤ (1/2) * quantStep L := mul_le_mul_of_nonneg_right habs hs.le
    _ = quantStep L / 2 := by ring

/-- C9: For every channel plane, the diffusion pass conserves the
channel sum exactly up to the error dropped at out-of-bounds targets:
the instrumented pass computes the same plane as `fsPass` plus the
accumulated dropped error, the sum of the output plane equals the input
sum minus that dropped error, the per-pixel dropped weight is zero away
from the right/left/bottom edges, and each per-pixel quantization error
is bounded by `step/2`. -/
theorem C9_diffusion_conserves_sum (q : ℚ) (w h : ℕ) (c : ℕ → ℚ) :
    ((fsPassD q w h (c, 0)).1 = fsPass q w h c) ∧
    chanSum (h * w) (fsPass q w h c) = chanSum (h * w) c - (fsPassD q w h (c, 0)).2 ∧
    (∀ y x, 1 ≤ x → x + 1 < w → y + 1 < h → droppedWeight w h y x = 0) ∧
    (∀ (L : ℕ) (v : ℚ), 2 ≤ L → |v - quantizeQ (quantStep L) v| ≤ quantStep L / 2) := by
  have hfst := fsPassD_fst q w h (c, 0)
  have hcons := fsPassD_conserves q w h c
  refine ⟨hfst, ?_, fun y x h1 h2 h3 => droppedWeight_interior w h y x h1 h2 h3,
    fun L v hL => quantize_err_bound L hL v⟩
  rw [← hfst]
  linarith

/-- Witness for C9: no error is dropped at the interior pixel `(1,1)`
of a 3×3 grid. -/
theorem C9_diffusion_conserves_sum_witness : droppedWeight 3 3 1 1 = 0 :=
  (C9_diffusion_conserves_sum 1 3 3 (fun _ => 0)).2.2.1 1 1 (by decide) (by decide) (by decide)

/-! ## Pipeline state claims -/

theorem makeTargetSize_at_fullhd : makeTargetSize 1920 1080 (5/2) = (960, 540) := by
  unfold makeTargetSize
  rw [show ⌊(5/2 : ℚ)⌋ = 2 from by norm_num [Int.floor_eq_iff]]
  decide

theorem makeTargetSize_at_800 : makeTargetSize 800 600 (5/2) = (400, 300) := by
  unfold makeTargetSize
  rw [show ⌊(5/2 : ℚ)⌋ = 2 from by norm_num [Int.floor_eq_iff]]
  decide

/-- C6 counterexample: with `dotSize = 2.5` the integer scale is
`max(1, floor(2.5)) = 2`, so a 1920×1080 display does NOT yield the
claimed 768×432 target. -/
theorem C6_target_size_counterexample : makeTargetSize 1920 1080 (5/2) ≠ (768, 432) := by
  rw [makeTargetSize_at_fullhd]
  decide

/-- C6 (amended): for `displayWidth = 1920`, `displayHeight = 1080`,
`dotSize = 2.5`, the computed offscreen target dimensions are
`tw = 960` and `th = 540` (`scale = max(1, floor(2.5)) = 2`). -/
theorem C6_target_size_amended : makeTargetSize 1920 1080 (5/2) = (960, 540) :=
  makeTargetSize_at_fullhd

/-- C5 (code evaluated at the failing input): after mounting at
1920×1080 with `dotSize = 2.5` and resizing to 800×600, the target is
400×300 but `pixelBuf` still has its mount-time length
`960*540*4 = 2073600 ≠ 400*300*4`; indeed `onResize` never reallocates
the raw pixel buffer. -/
theorem C5_raw_buffer_not_reallocated :
    (onResize true 800 600 (mount 1920 1080 (5/2))).targetW = 400 ∧
    (onResize true 800 600 (mount 1920 1080 (5/2))).targetH = 300 ∧
    (onResize true 800 600 (mount 1920 1080 (5/2))).pixelBufLen = 2073600 ∧
    (onResize true 800 600 (mount 1920 1080 (5/2))).pixelBufLen
      ≠ (onResize true 800 600 (mount 1920 1080 (5/2))).targetW
        * (onResize true 800 600 (mount 1920 1080 (5/2))).targetH * 4 ∧
    (∀ (allocOk : Bool) (w2 h2 : ℕ) (s : PipelineState),
      (onResize allocOk w2 h2 s).pixelBufLen = s.pixelBufLen) := by
  have hnever : ∀ (allocOk : Bool) (w2 h2 : ℕ) (s : PipelineState),
      (onResize allocOk w2 h2 s).pixelBufLen = s.pixelBufLen := by
    intro allocOk w2 h2 s
    unfold onResize
    split_ifs <;> rfl
  have hm : (mount 1920 1080 (5/2)).dotsize = 5/2 := rfl
  have hlen : (mount 1920 1080 (5/2)).pixelBufLen = 2073600 := by
    unfold mount
    rw [makeTargetSize_at_fullhd]
    rfl
  have hW : (onResize true 800 600 (mount 1920 1080 (5/2))).targetW = 400 := by
    unfold onResize
    rw [hm, makeTargetSize_at_800]
    rfl
  have hH : (onResize true 800 600 (mount 1920 1080 (5/2))).targetH = 300 := by
    unfold onResize
    rw [hm, makeTargetSize_at_800]
    rfl
  have hlen2 : (onResize true 800 600 (mount 1920 1080 (5/2))).pixelBufLen = 2073600 :=
    (hnever true 800 600 _).trans hlen
  refine ⟨hW, hH, hlen2, ?_, hnever⟩
  rw [hW, hH, hlen2]
  decide

/-- C8 counterexample: `onResize` disposes the old render target
BEFORE allocating the replacement; when the allocation fails the
controller is left without a valid target. -/
theorem C8_resize_counterexample :
    (onResize false 800 600 (mount 1920 1080 (5/2))).targetValid = false ∧
    onResizeEventOrder.indexOf ResizeEvent.disposeOld
      < onResizeEventOrder.indexOf ResizeEvent.allocateNew := by
  constructor
  · rfl
  · decide

/-- C8 (amended): resize is release-then-allocate, not
allocate-then-swap-then-release: the dispose of the old target precedes
the allocation of the replacement in `onResize`'s statement order, an
allocation failure leaves the controller with no valid target, and only
a successful allocation restores one. -/
theorem C8_resize_dispose_before_allocate :
    (∀ (w2 h2 : ℕ) (s : PipelineState), (onResize false w2 h2 s).targetValid = false) ∧
    (∀ (w2 h2 : ℕ) (s : PipelineState), (onResize true w2 h2 s).targetValid = true) ∧
    onResizeEventOrder.indexOf ResizeEvent.disposeOld
      < onResizeEventOrder.indexOf ResizeEvent.allocateNew := by
  refine ⟨fun w2 h2 s => rfl, fun w2 h2 s => rfl, by decide⟩

/-! ## Readback-failure resilience of the animation loop -/

theorem animateTick_none_fields (tw th : ℕ) (t : ℚ) (s : AnimState)
    (hm : s.mounted = true) :
    (animateTick none tw th t s).pixelBuf = s.pixelBuf ∧
    (animateTick none tw th t s).outImage = s.outImage ∧
    (animateTick none tw th t s).ditherRuns = s.ditherRuns ∧
    (animateTick none tw th t s).scheduledNext = true ∧
    (animateTick none tw th t s).mounted = true := by
  unfold animateTick
  rw [hm]
  simp [framesBetweenProcess]

/-- C7: If the readback fails (throws) on every tick, any number of
ticks of the animation loop leaves the pixel buffer, the output image
and the diffusion-run count untouched, never runs the diffusion pass,
and the loop is still scheduling the next tick afterwards (the
`try`/`catch` swallows the failure; the model is a total function, so
no tick throws). -/
theorem C7_readback_failure_resilient (ts : List ℚ) (tw th : ℕ) (s0 : AnimState)
    (hm : s0.mounted = true) (hne : ts ≠ []) :
    (ts.foldl (fun s t => animateTick none tw th t s) s0).pixelBuf = s0.pixelBuf ∧
    (ts.foldl (fun s t => animateTick none tw th t s) s0).outImage = s0.outImage ∧
    (ts.foldl (fun s t => animateTick none tw th t s) s0).ditherRuns = s0.ditherRuns ∧
    (ts.foldl (fun s t => animateTick none tw th t s) s0).scheduledNext = true ∧
    (ts.foldl (fun s t => animateTick none tw th t s) s0).mounted = true := by
  have main : ∀ (l : List ℚ) (s : AnimState), s.mounted = true →
      ((l.foldl (fun s2 t => animateTick none tw th t s2) s).pixelBuf = s.pixelBuf ∧
       (l.foldl (fun s2 t => animateTick none tw th t s2) s).outImage = s.outImage ∧
       (l.foldl (fun s2 t => animateTick none tw th t s2) s).ditherRuns = s.ditherRuns ∧
       (l.foldl (fun s2 t => animateTick none tw th t s2) s).mounted = true) ∧
      (l ≠ [] →
        (l.foldl (fun s2 t => animateTick none tw th t s2) s).scheduledNext = true) := by
    intro l
    induction l with
    | nil =>
        intro s hm2
        exact ⟨⟨rfl, rfl, rfl, hm2⟩, fun hc => absurd rfl hc⟩
    | cons t l2 ih =>
        intro s hm2
        obtain ⟨h1, h2, h3, h4, h5⟩ := animateTick_none_fields tw th t s hm2
        rw [List.foldl_cons]
        obtain ⟨⟨g1, g2, g3, g4⟩, gs⟩ := ih (animateTick none tw th t s) h5
        refine ⟨⟨g1.trans h1, g2.trans h2, g3.trans h3, g4⟩, fun _ => ?_⟩
        by_cases hl : l2 = []
        · subst hl
          simpa using h4
        · exact gs hl
  obtain ⟨⟨m1, m2, m3, m4⟩, ms⟩ := main ts s0 hm
  exact ⟨m1, m2, m3, ms hne, m4⟩

/-- Witness for C7: one failing tick still schedules the next frame. -/
theorem C7_readback_failure_resilient_witness :
    (([(0 : ℚ)]).foldl (fun s t => animateTick none 1 1 t s) animS0).scheduledNext = true :=
  (C7_readback_failure_resilient [0] 1 1 animS0 rfl (List.cons_ne_nil 0 [])).2.2.2.1
